import Mathlib

/-!
Shallow embedding of the group-sync-operator syncer package
(`KeycloakSyncer` from the keycloak syncer file and `AzureSyncer` from
`pkg/syncer/azure.go`).  Go maps are modelled as association lists, the
external collaborators (Kubernetes client, GoCloak, Microsoft Graph,
`net/url`) as oracle parameters, and Go panics as explicit error values.
-/

namespace GroupSync

/-- Association-list lookup, modelling Go map indexing `m[k]`. -/
def alookup {α : Type} : List (String × α) → String → Option α
  | [], _ => none
  | (k, v) :: rest, key => if k = key then some v else alookup rest key

/-- Association-list assignment, modelling Go map assignment `m[k] = v`:
replaces the existing entry for the key, otherwise appends a new one. -/
def aset {α : Type} : List (String × α) → String → α → List (String × α)
  | [], key, v => [(key, v)]
  | (k, w) :: rest, key, v =>
    if k = key then (k, v) :: rest else (k, w) :: aset rest key v

/-- Keycloak user (`gocloak.User`); only the `Username` field is read by the
syncer (dereferenced when the canonical group is built). -/
structure KUser where
  username : String
deriving DecidableEq, Repr

/-- Keycloak group (`gocloak.Group`): identifier, display name pointer
(`*string`, `none` = nil) and embedded sub-group stubs. -/
inductive KGroup where
  | mk (id : String) (name : Option String) (subGroups : List KGroup)

def KGroup.id : KGroup → String
  | .mk i _ _ => i

def KGroup.name : KGroup → Option String
  | .mk _ n _ => n

def KGroup.subGroups : KGroup → List KGroup
  | .mk _ _ s => s

/-- `redhatcopv1alpha1.SyncScope`: `one` (group-only) or `sub`
(include-subgroups, `SubSyncScope`). -/
inductive SyncScope where
  | one
  | sub
deriving DecidableEq, Repr

/-- The mutable state of a `KeycloakSyncer` that the walk touches:
`CachedGroups`, `CachedGroupMembers`, plus a ghost log `plog` recording the
identifier of every group whose body `processGroupsAndMembers` executes
(i.e. every member-fetch issued); the log is pure instrumentation. -/
structure KState where
  cachedGroups : List (String × KGroup)
  cachedGroupMembers : List (String × List KUser)
  plog : List String

/-- Errors returned by the GoCloak oracle (`GetGroups`/`GetGroupMembers`). -/
abbrev KE := String

mutual

/-- `KeycloakSyncer.processGroupsAndMembers`: caches the group, fetches its
members, stores them, appends them to the parent's cached member list when a
parent exists, and (under `sub` scope) recurses into uncached sub-groups.
The error of a recursive call is discarded, as in the source. -/
def processGroupsAndMembers (fetch : String → Except KE (List KUser))
    (scope : SyncScope) (group : KGroup) (parentId : Option String)
    (st : KState) : KState × Option KE :=
  match group with
  | .mk gid gname sgs =>
    let st1 : KState :=
      { st with cachedGroups := aset st.cachedGroups gid (.mk gid gname sgs),
                plog := st.plog ++ [gid] }
    match fetch gid with
    | .error e => (st1, some e)
    | .ok groupMembers =>
      let st2 : KState :=
        { st1 with cachedGroupMembers := aset st1.cachedGroupMembers gid groupMembers }
      let st3 : KState :=
        match parentId with
        | some pid =>
          let bubbled := (alookup st2.cachedGroupMembers pid).getD [] ++ groupMembers
          { st2 with cachedGroupMembers := aset st2.cachedGroupMembers pid bubbled }
        | none => st2
      if scope = SyncScope.sub then
        (processSubGroups fetch scope sgs gid st3, none)
      else
        (st3, none)

/-- The `for _, subGroup := range group.SubGroups` loop of
`processGroupsAndMembers`: recurses into each sub-group not already present
in `CachedGroups`, ignoring the recursive call's error. -/
def processSubGroups (fetch : String → Except KE (List KUser))
    (scope : SyncScope) (sgs : List KGroup) (pid : String)
    (st : KState) : KState :=
  match sgs with
  | [] => st
  | sg :: rest =>
    let st' :=
      if (alookup st.cachedGroups sg.id).isSome then st
      else (processGroupsAndMembers fetch scope sg (some pid) st).1
    processSubGroups fetch scope rest pid st'

end

/-- The top-level loop of `KeycloakSyncer.Sync` (the `for _, group := range
groups` loop): walks every top-level group not already cached, discarding
the error `processGroupsAndMembers` returns, exactly as the source does. -/
def syncTopGroups (fetch : String → Except KE (List KUser))
    (scope : SyncScope) : List KGroup → KState → KState
  | [], st => st
  | g :: rest, st =>
    let st' :=
      if (alookup st.cachedGroups g.id).isSome then st
      else (processGroupsAndMembers fetch scope g none st).1
    syncTopGroups fetch scope rest st'

/-- The canonical group record (`userv1.Group` as the syncers build it):
name, the two sync-source annotations, and the user list. -/
structure OcpGroup where
  name : String
  sourceHost : String
  sourceUID : String
  users : List String
deriving DecidableEq, Repr

/-- Errors with which `KeycloakSyncer.Sync` can terminate: a GoCloak call
error, a `url.Parse` error, or the Go runtime panic of dereferencing a nil
`Name` pointer at `ocpGroup.Name: *cachedGroup.Name`. -/
inductive KSErr where
  | fetch (e : KE)
  | urlErr (e : KE)
  | nilNameDeref
deriving DecidableEq, Repr

/-- The output loop of `KeycloakSyncer.Sync` (`for _, cachedGroup := range
k.CachedGroups`): builds one canonical group per cached group, dereferencing
the display-name pointer, re-parsing the provider URL (its result is the
`urlRes` oracle) and reading the cached member list (a missing key yields
Go's nil slice, i.e. `[]`). -/
def buildOcpGroups (urlRes : Except KE String)
    (members : List (String × List KUser)) :
    List (String × KGroup) → Except KSErr (List OcpGroup)
  | [] => .ok []
  | (gid, g) :: rest =>
    match g.name with
    | none => .error .nilNameDeref
    | some nm =>
      match urlRes with
      | .error e => .error (.urlErr e)
      | .ok host => do
        let users := ((alookup members gid).getD []).map KUser.username
        let rest' ← buildOcpGroups urlRes members rest
        .ok (({ name := nm, sourceHost := host, sourceUID := gid,
                users := users } : OcpGroup) :: rest')

/-- `KeycloakSyncer.Sync`: fetches the top-level groups (oracle
`getGroups`), aborts on that error, then walks them — discarding each
walk's error exactly as the source's `for` loop does — and finally maps the
cache to canonical groups.  Returns the result together with the syncer's
cache state after the run. -/
def keycloakSync (fetch : String → Except KE (List KUser))
    (getGroups : Except KE (List KGroup)) (urlRes : Except KE String)
    (scope : SyncScope) (st : KState) :
    Except KSErr (List OcpGroup) × KState :=
  match getGroups with
  | .error e => (.error (.fetch e), st)
  | .ok groups =>
    let st' := syncTopGroups fetch scope groups st
    (buildOcpGroups urlRes st'.cachedGroupMembers st'.cachedGroups, st')

/-- A Kubernetes secret as the validators read it: the `Data` byte map. -/
structure KSecret where
  data : List (String × String)
deriving DecidableEq, Repr

/-- The fields of `KeycloakSyncer` that `Validate` can see or touch
(provider configuration, the `Secret` field it assigns, and the caches). -/
structure KSyncer where
  name : String
  providerURL : String
  loginRealm : String
  scope : SyncScope
  secretName : String
  insecure : Bool
  secret : Option KSecret
  state : KState

/-- One entry of the error list `KeycloakSyncer.Validate` aggregates. -/
inductive KVErr where
  | clientGet (e : KE)
  | badURL (e : KE)
  | missingKey (key : String)
deriving DecidableEq, Repr

/-- `KeycloakSyncer.Validate`: collects the secret-fetch error, the
`url.ParseRequestURI` error (oracle `parseReqURI`), and the missing-key
errors, then assigns the fetched secret (the zero-value secret when the
fetch failed) to `k.Secret`.  The source's password-key branch tests
`secret.Data[secretUsernameKey]` — the username key — while reporting the
password key; this embedding reproduces that condition verbatim. -/
def keycloakValidate (getSecret : Except KE KSecret)
    (parseReqURI : String → Option KE) (k : KSyncer) : KSyncer × List KVErr :=
  let fetched : KSecret × List KVErr :=
    match getSecret with
    | .error e => (⟨[]⟩, [.clientGet e])
    | .ok s => (s, [])
  let secret := fetched.1
  let errs1 : List KVErr :=
    match parseReqURI k.providerURL with
    | some e => fetched.2 ++ [.badURL e]
    | none => fetched.2
  let errs2 : List KVErr :=
    if (alookup secret.data "username").isNone then errs1 ++ [.missingKey "username"]
    else errs1
  let errs3 : List KVErr :=
    if (alookup secret.data "username").isNone then errs2 ++ [.missingKey "password"]
    else errs2
  ({ k with secret := some secret }, errs3)

/-- `KeycloakSyncer.Bind`: re-creates `CachedGroupMembers` and
`CachedGroups` as fresh empty maps (the ghost log is reset with them),
then authenticates (oracle `login`); on login failure the error is
returned. -/
def keycloakBind (login : Except KE Unit) (k : KSyncer) :
    Except KE KSyncer :=
  let k' : KSyncer := { k with state := ⟨[], [], []⟩ }
  match login with
  | .error e => .error e
  | .ok _ => .ok k'

/-- One Keycloak run as the Orchestrator sequences it.  Modelled from the
spec: the Orchestrator pipeline (`§4.5`) — absent from `src/` — invokes
`Bind` and then `Sync` for each run; this composes the two source-modelled
steps in that order and returns the canonical output. -/
def keycloakRun (login : Except KE Unit)
    (fetch : String → Except KE (List KUser))
    (getGroups : Except KE (List KGroup)) (urlRes : Except KE String)
    (k : KSyncer) : Except KSErr (List OcpGroup) :=
  match keycloakBind login k with
  | .error e => .error (.fetch e)
  | .ok k' => (keycloakSync fetch getGroups urlRes k'.scope k'.state).1

/-! ## Azure syncer (`pkg/syncer/azure.go`) -/

/-- The constants of `azure.go`. -/
def TenantID : String := "AZURE_TENANT_ID"

def ClientID : String := "AZURE_CLIENT_ID"

def ClientSecret : String := "AZURE_CLIENT_SECRET"

def GraphGroupType : String := "#microsoft.graph.group"

def GraphUserType : String := "#microsoft.graph.user"

def GraphOdataType : String := "@odata.type"

def GraphDisplayName : String := "displayName"

def GraphUserNameAttribute : String := "userPrincipalName"

/-- A value stored in a directory object's additional-data map
(`map[string]interface{}`): either a `*string` (possibly the nil pointer,
`none`) or a value of some other dynamic type. -/
inductive AVal where
  | strPtr (p : Option String)
  | otherVal
deriving DecidableEq, Repr

/-- A Microsoft Graph directory object as the syncer reads it: the `id`
field (`*string`) and the additional-data map. -/
structure ADirObj where
  id : Option String
  additionalData : List (String × AVal)
deriving DecidableEq, Repr

/-- A Microsoft Graph group: its directory object plus the typed
`displayName` field (`*string`). -/
structure AGroup where
  dirObj : ADirObj
  displayName : Option String
deriving DecidableEq, Repr

/-- Errors with which the Azure sync can terminate: a Graph/transport
error, a `url.Parse` failure, the runtime panic of dereferencing a nil
`*string`, and the runtime panic of a failed single-value type assertion. -/
inductive AzErr where
  | transport (e : KE)
  | urlParse (e : KE)
  | panicNilDeref
  | panicAssert
deriving DecidableEq, Repr

/-- The two-valued type assertion `v, ok := x.(*string)`: yields the stored
pointer with `ok = true` when the dynamic type matches, and the nil pointer
with `ok = false` otherwise (including a missing key, i.e. `none`). -/
def assertStrPtr2 : Option AVal → Option String × Bool
  | some (.strPtr p) => (p, true)
  | some .otherVal => (none, false)
  | none => (none, false)

/-- The single-valued type assertion `x.(*string)`: panics unless the
dynamic type matches. -/
def assertStrPtr1 : Option AVal → Except AzErr (Option String)
  | some (.strPtr p) => .ok p
  | _ => .error .panicAssert

/-- Dereference of a `*string`: panics on the nil pointer. -/
def derefStr : Option String → Except AzErr String
  | none => .error .panicNilDeref
  | some s => .ok s

/-- Modelled from the spec: `isGroupAllowed` is called by
`AzureSyncer.Sync` but defined in a repository file that is not under
`src/`; per the Allow-list Filter section, an empty or absent allow-list
allows every group, and otherwise a group is allowed exactly when its
display name is literally in the list. -/
def isGroupAllowed (name : String) (allowList : List String) : Bool :=
  allowList.isEmpty || allowList.contains name

/-- `AzureSyncer.isUsernamePresent`: performs the two-valued assertion on
the requested field and returns `(fmt.Sprintf("%v", *value), ok)`; the
dereference of `value` happens unconditionally, so a failed assertion (nil
pointer) panics instead of reaching the `ok = false` return. -/
def isUsernamePresent (user : ADirObj) (field : String) :
    Except AzErr (String × Bool) :=
  let vo := assertStrPtr2 (alookup user.additionalData field)
  match vo.1 with
  | none => .error .panicNilDeref
  | some s => .ok (s, vo.2)

/-- The attribute loop of `AzureSyncer.getUsernameForUser`: returns the
first present attribute value, or `("", false)` when the list is
exhausted. -/
def usernameAttrLoop (user : ADirObj) : List String → Except AzErr (String × Bool)
  | [] => .ok ("", false)
  | f :: rest => do
    let r ← isUsernamePresent user f
    if r.2 then .ok (r.1, true) else usernameAttrLoop user rest

/-- `AzureSyncer.getUsernameForUser`: with no configured
`UserNameAttributes` the default `userPrincipalName` attribute is used,
otherwise the configured attributes are tried in order. -/
def getUsernameForUser (attrs : Option (List String)) (user : ADirObj) :
    Except AzErr (String × Bool) :=
  match attrs with
  | none => isUsernamePresent user GraphUserNameAttribute
  | some l => usernameAttrLoop user l

/-- The member loop of `AzureSyncer.listGroupMembers`: for each
user-typed member, the username is resolved; a member whose username is not
found is skipped with a logged warning. -/
def azMembersLoop (attrs : Option (List String)) :
    List ADirObj → Except AzErr (List String)
  | [] => .ok []
  | m :: rest => do
    let odata ← derefStr (assertStrPtr2 (alookup m.additionalData GraphOdataType)).1
    if odata = GraphUserType then do
      let r ← getUsernameForUser attrs m
      let rest' ← azMembersLoop attrs rest
      if r.2 then .ok (r.1 :: rest') else .ok rest'
    else
      azMembersLoop attrs rest

/-- `AzureSyncer.listGroupMembers`: dereferences the group-id pointer,
fetches the transitive members (oracle), and resolves usernames. -/
def azListGroupMembers (transMembers : String → Except KE (List ADirObj))
    (attrs : Option (List String)) (gidPtr : Option String) :
    Except AzErr (List String) := do
  let gid ← derefStr gidPtr
  match transMembers gid with
  | .error e => .error (.transport e)
  | .ok members => azMembersLoop attrs members

/-- The base-group member loop of `AzureSyncer.Sync` (lines 177–192):
every member whose `@odata.type` is the group type becomes an additional
`aadGroup`, with its display name read from the additional-data map by a
single-valued type assertion. -/
def expandBaseMembers : List ADirObj → Except AzErr (List AGroup)
  | [] => .ok []
  | m :: rest => do
    let odata ← derefStr (assertStrPtr2 (alookup m.additionalData GraphOdataType)).1
    if odata = GraphGroupType then do
      let namePtr ← assertStrPtr1 (alookup m.additionalData GraphDisplayName)
      let rest' ← expandBaseMembers rest
      .ok (({ dirObj := m, displayName := namePtr } : AGroup) :: rest')
    else
      expandBaseMembers rest

/-- The base-group loop of `AzureSyncer.Sync`: for each configured base
group name, look the group up by display name; unless exactly one match is
found the name is skipped; otherwise the matched group and its group-typed
direct members are appended to the accumulated `aadGroups`. -/
def azBasePath (lookupBase : String → Except KE (List AGroup))
    (getBaseMembers : String → Except KE (List ADirObj)) :
    List String → List AGroup → Except AzErr (List AGroup)
  | [], acc => .ok acc
  | bg :: rest, acc =>
    match lookupBase bg with
    | .error e => .error (.transport e)
    | .ok found =>
      match found with
      | [g] => do
        let gid ← derefStr g.dirObj.id
        match getBaseMembers gid with
        | .error e => .error (.transport e)
        | .ok ms => do
          let expanded ← expandBaseMembers ms
          azBasePath lookupBase getBaseMembers rest (acc ++ g :: expanded)
      | _ => azBasePath lookupBase getBaseMembers rest acc

/-- The output loop of `AzureSyncer.Sync` (`for _, group := range
aadGroups`): a nil display name is skipped with a warning; the allow-list
filter is applied to the display name; then the canonical group is built
from the id annotation and the resolved transitive members. -/
def mapAadGroups (transMembers : String → Except KE (List ADirObj))
    (attrs : Option (List String)) (allowList : List String) (host : String) :
    List AGroup → Except AzErr (List OcpGroup)
  | [] => .ok []
  | g :: rest =>
    match g.displayName with
    | none => mapAadGroups transMembers attrs allowList host rest
    | some nm =>
      if isGroupAllowed nm allowList then do
        let gid ← derefStr g.dirObj.id
        let users ← azListGroupMembers transMembers attrs g.dirObj.id
        let rest' ← mapAadGroups transMembers attrs allowList host rest
        .ok (({ name := nm, sourceHost := host, sourceUID := gid,
                users := users } : OcpGroup) :: rest')
      else
        mapAadGroups transMembers attrs allowList host rest

/-- The Azure provider configuration fields `Sync` reads. -/
structure AzProvider where
  baseGroups : List String
  filter : String
  groups : List String
  userNameAttributes : Option (List String)
  authorityHost : Option String
  prune : Bool

/-- The external Microsoft Graph and `net/url` calls of the Azure syncer,
as oracles; the member filter expression is applied server-side and is
therefore folded into the oracle results. -/
structure AzOracles where
  topGroups : Except KE (List AGroup)
  baseGroupLookup : String → Except KE (List AGroup)
  baseGroupMembers : String → Except KE (List ADirObj)
  transitiveMembers : String → Except KE (List ADirObj)
  parseURL : String → Except KE String

/-- `getAuthorityHost`: the configured authority host, defaulting to the
Azure public cloud endpoint. -/
def getAuthorityHost (authorityHost : Option String) : String :=
  authorityHost.getD "https://login.microsoftonline.com/"

/-- `AzureSyncer.Sync`: builds `aadGroups` either from the configured base
groups (when the list is non-empty) or from the top-level group listing,
parses the authority host URL, and maps every `aadGroup` — from either
path — through the display-name check, the allow-list filter, and member
resolution. -/
def azureSync (p : AzProvider) (o : AzOracles) : Except AzErr (List OcpGroup) := do
  let aadGroups ←
    if p.baseGroups.isEmpty then
      match o.topGroups with
      | .error e => .error (.transport e)
      | .ok gs => .ok gs
    else
      azBasePath o.baseGroupLookup o.baseGroupMembers p.baseGroups []
  match o.parseURL (getAuthorityHost p.authorityHost) with
  | .error e => .error (.urlParse e)
  | .ok host => mapAadGroups o.transitiveMembers p.userNameAttributes p.groups host aadGroups

/-- The per-run cache fields of `AzureSyncer` (`CachedGroups`,
`CachedGroupUsers`). -/
structure AzState where
  cachedGroups : List (String × AGroup)
  cachedGroupUsers : List (String × List String)
deriving DecidableEq, Repr

/-- `AzureSyncer.Init`: re-creates both caches as fresh empty maps and
returns `false` (no defaults were applied). -/
def azureInit (_st : AzState) : AzState × Bool :=
  (⟨[], []⟩, false)

/-- The fields of `AzureSyncer` that `Validate` can see or touch. -/
structure AzSyncer where
  name : String
  credSecretName : String
  credSecretNamespace : String
  credentialsSecret : Option KSecret
  azState : AzState
  provider : AzProvider

/-- One entry of the error list `AzureSyncer.Validate` aggregates. -/
inductive AVErr where
  | clientGet (e : KE)
  | missingKeys
deriving DecidableEq, Repr

/-- `AzureSyncer.Validate`: on a secret-fetch failure only that error is
reported (and `CredentialsSecret` is not assigned); otherwise one combined
error is reported when any of the three required keys is missing, and the
fetched secret is assigned to `a.CredentialsSecret`. -/
def azureValidate (getSecret : Except KE KSecret) (a : AzSyncer) :
    AzSyncer × List AVErr :=
  match getSecret with
  | .error e => (a, [.clientGet e])
  | .ok s =>
    let missing := (alookup s.data TenantID).isNone
      || (alookup s.data ClientID).isNone
      || (alookup s.data ClientSecret).isNone
    let errs : List AVErr := if missing then [.missingKeys] else []
    ({ a with credentialsSecret := some s }, errs)

/-- The walk invariant behind cycle safety: the ghost log of processed
identifiers has no duplicates, and every processed identifier is cached. -/
def WalkInv (st : KState) : Prop :=
  st.plog.Nodup ∧ ∀ id ∈ st.plog, (alookup st.cachedGroups id).isSome

/-! ## Concrete fixtures used by the claim theorems -/

/-- A two-level hierarchy: top-level group `idA` with sub-group `idB`. -/
def c1Groups : List KGroup :=
  [.mk "idA" (some "team-a") [.mk "idB" (some "team-b") []]]

/-- Member oracle whose fetch fails for every group except `idA`. -/
def c1Fetch : String → Except KE (List KUser) := fun gid =>
  if gid = "idA" then .ok [⟨"alice"⟩] else .error "boom"

/-- A three-level hierarchy: `idA` → `idB` → `idD`. -/
def c2Groups : List KGroup :=
  [.mk "idA" (some "A") [.mk "idB" (some "B") [.mk "idD" (some "D") []]]]

/-- Member oracle: `a1` in `idA`, `b1` in `idB`, `d1` in `idD`. -/
def c2Fetch : String → Except KE (List KUser) := fun gid =>
  if gid = "idA" then .ok [⟨"a1"⟩]
  else if gid = "idB" then .ok [⟨"b1"⟩]
  else if gid = "idD" then .ok [⟨"d1"⟩]
  else .error "missing"

/-- A leaf child group used to witness the bubbling lemma. -/
def c2wB : KGroup := .mk "b" (some "B") []

/-- A state in which the parent `p` is already cached. -/
def c2wSt : KState := ⟨[("p", .mk "p" (some "P") [])], [], []⟩

/-- Member oracle returning the single user `u` for every group. -/
def c2wFetch : String → Except KE (List KUser) := fun _ => .ok [⟨"u"⟩]

/-- A sub-group fixture for the group-only-scope witness. -/
def c3wSub : KGroup := .mk "idB" (some "B") []

/-- Member oracle: `x` in `idA`, `y` in `idB`. -/
def c3wFetch : String → Except KE (List KUser) := fun gid =>
  if gid = "idA" then .ok [⟨"x"⟩]
  else if gid = "idB" then .ok [⟨"y"⟩]
  else .error "missing"

/-- Cyclic fixture: group `A` whose sub-group `B` carries a stub of `A`
again (`A` → `B` → `A`). -/
def cycleA : KGroup :=
  .mk "A" (some "grp-a") [.mk "B" (some "grp-b") [.mk "A" (some "grp-a") []]]

/-- Member oracle for the cyclic fixture. -/
def cycleFetch : String → Except KE (List KUser) := fun gid =>
  if gid = "A" then .ok [⟨"alice"⟩]
  else if gid = "B" then .ok [⟨"bob"⟩]
  else .error "missing"

/-- An Azure provider with no base groups, no allow-list, default username
attributes. -/
def c4Provider : AzProvider := ⟨[], "", [], none, none, false⟩

/-- A user-typed directory member with username `u`. -/
def c4Member (u : String) : ADirObj :=
  ⟨some "idU", [(GraphOdataType, .strPtr (some GraphUserType)),
                (GraphUserNameAttribute, .strPtr (some u))]⟩

/-- Azure oracles: one top-level group `idG` with display name `n`, whose
transitive members are the single user `u`. -/
def c4Oracle (n : Option String) (u : String) : AzOracles :=
  ⟨.ok [⟨⟨some "idG", []⟩, n⟩],
   fun _ => .ok [],
   fun _ => .ok [],
   fun _ => .ok [c4Member u],
   fun _ => .ok "login.microsoftonline.com"⟩

/-- A secret carrying only the `username` key — no `password` key. -/
def c5Secret : KSecret := ⟨[("username", "admin")]⟩

/-- A Keycloak syncer before validation: no secret fetched yet. -/
def c5Syncer : KSyncer :=
  ⟨"keycloak", "https://kc.example.com/auth", "master", .sub, "kc-secret",
   false, none, ⟨[], [], []⟩⟩

/-- The base group object for the allow-list fixtures. -/
def c7BaseObj : ADirObj := ⟨some "idBase", []⟩

/-- A group-typed member named `eng`, reached through base-group
expansion. -/
def c7EngObj : ADirObj :=
  ⟨some "idEng", [(GraphOdataType, .strPtr (some GraphGroupType)),
                  (GraphDisplayName, .strPtr (some "eng"))]⟩

/-- A group-typed member named `ops`, reached through base-group
expansion. -/
def c7OpsObj : ADirObj :=
  ⟨some "idOps", [(GraphOdataType, .strPtr (some GraphGroupType)),
                  (GraphDisplayName, .strPtr (some "ops"))]⟩

/-- Azure provider configured with base group `base` and allow-list
`["eng"]`. -/
def c7Provider : AzProvider := ⟨["base"], "", ["eng"], none, none, false⟩

/-- The same provider with an empty allow-list. -/
def c7ProviderAll : AzProvider := ⟨["base"], "", [], none, none, false⟩

/-- Azure oracles for the base-group fixtures: `base` expands to the two
group-typed members `eng` and `ops`; every group has no transitive user
members. -/
def c7Oracle : AzOracles :=
  ⟨.ok [],
   fun nm => if nm = "base" then .ok [⟨c7BaseObj, some "base"⟩] else .ok [],
   fun gid => if gid = "idBase" then .ok [c7EngObj, c7OpsObj] else .ok [],
   fun _ => .ok [],
   fun _ => .ok "login.microsoftonline.com"⟩

/-- A top-level Azure group used to witness the allow-list theorem. -/
def c7wGroup : AGroup := ⟨⟨some "g1", []⟩, some "eng"⟩

/-- A directory member whose additional-data map lacks the
`userPrincipalName` attribute. -/
def c10UserNoField : ADirObj := ⟨some "idU", [("jobTitle", .otherVal)]⟩

/-- A directory member whose `userPrincipalName` attribute is present. -/
def c10UserOk : ADirObj :=
  ⟨some "idU", [(GraphUserNameAttribute, .strPtr (some "bob"))]⟩

/-! ## Association-list lemmas -/

theorem alookup_aset {α : Type} (l : List (String × α)) (k' : String) (v : α)
    (k : String) :
    alookup (aset l k' v) k = if k' = k then some v else alookup l k := by
  induction l with
  | nil => simp [aset, alookup]
  | cons hd tl ih =>
    obtain ⟨k0, w⟩ := hd
    by_cases h0 : k0 = k'
    · subst h0
      by_cases h1 : k0 = k
      · subst h1; simp [aset, alookup]
      · simp [aset, alookup, h1]
    · by_cases h1 : k0 = k
      · subst h1
        have h2 : ¬ k' = k0 := fun h => h0 h.symm
        simp [aset, alookup, h0, h2]
      · simp [aset, alookup, h0, h1, ih]

theorem aset_isSome {α : Type} {l : List (String × α)} {k : String}
    (k' : String) (v : α) (h : (alookup l k).isSome) :
    (alookup (aset l k' v) k).isSome := by
  rw [alookup_aset]
  by_cases hk : k' = k <;> simp [hk, h]

/-! ## A mutual induction principle for the nested group inductive -/

theorem kGroupInd (P : KGroup → Prop) (Q : List KGroup → Prop)
    (hg : ∀ gid gname sgs, Q sgs → P (KGroup.mk gid gname sgs))
    (hnil : Q [])
    (hcons : ∀ sg rest, P sg → Q rest → Q (sg :: rest)) :
    (∀ g, P g) ∧ (∀ sgs, Q sgs) := by
  have key : ∀ n : ℕ, (∀ g : KGroup, sizeOf g ≤ n → P g) ∧
      (∀ sgs : List KGroup, sizeOf sgs ≤ n → Q sgs) := by
    intro n
    induction n with
    | zero =>
      constructor
      · intro g hle
        cases g with
        | mk gid gname sgs => simp [KGroup.mk.sizeOf_spec] at hle
      · intro sgs hle
        cases sgs with
        | nil => exact hnil
        | cons sg rest => simp [List.cons.sizeOf_spec] at hle
    | succ n ih =>
      constructor
      · intro g hle
        cases g with
        | mk gid gname sgs =>
          apply hg
          apply ih.2
          simp [KGroup.mk.sizeOf_spec] at hle
          omega
      · intro sgs hle
        cases sgs with
        | nil => exact hnil
        | cons sg rest =>
          simp [List.cons.sizeOf_spec] at hle
          exact hcons sg rest (ih.1 sg (by omega)) (ih.2 rest (by omega))
  exact ⟨fun g => (key (sizeOf g)).1 g le_rfl,
         fun sgs => (key (sizeOf sgs)).2 sgs le_rfl⟩

/-! ## Walker invariants -/

/-- The cache only grows: a cached identifier stays cached through any walk
step (both the single-group walk and the sub-group loop). -/
theorem walk_cache_mono (fetch : String → Except KE (List KUser))
    (scope : SyncScope) :
    (∀ g : KGroup, ∀ pid st k, (alookup st.cachedGroups k).isSome →
      (alookup ((processGroupsAndMembers fetch scope g pid st).1).cachedGroups k).isSome) ∧
    (∀ sgs : List KGroup, ∀ p st k, (alookup st.cachedGroups k).isSome →
      (alookup (processSubGroups fetch scope sgs p st).cachedGroups k).isSome) := by
  apply kGroupInd
  · intro gid gname sgs hQ pid st k hk
    simp only [processGroupsAndMembers]
    cases hfe : fetch gid with
    | error e =>
      simpa using aset_isSome gid (KGroup.mk gid gname sgs) hk
    | ok ms =>
      cases pid with
      | none =>
        by_cases hsc : scope = SyncScope.sub
        · subst hsc
          simp only [if_pos rfl]
          exact hQ gid _ k (aset_isSome gid _ hk)
        · simp only [if_neg hsc]
          simpa using aset_isSome gid (KGroup.mk gid gname sgs) hk
      | some p =>
        by_cases hsc : scope = SyncScope.sub
        · subst hsc
          simp only [if_pos rfl]
          exact hQ gid _ k (aset_isSome gid _ hk)
        · simp only [if_neg hsc]
          simpa using aset_isSome gid (KGroup.mk gid gname sgs) hk
  · intro p st k hk
    simpa [processSubGroups] using hk
  · intro sg rest hP hQ p st k hk
    simp only [processSubGroups]
    by_cases hc : (alookup st.cachedGroups sg.id).isSome
    · simpa [hc] using hQ p st k hk
    · simp only [hc, if_false]
      exact hQ p _ k (hP (some p) st k hk)


/-- Frame property of the walk: the cached member list of an
already-cached identifier `k` is untouched by walking an uncached group
whose parent is not `k` (and by the sub-group loop under a parent other
than `k`).  This is what limits bubbling to the direct parent. -/
theorem walk_members_frame (fetch : String → Except KE (List KUser))
    (scope : SyncScope) :
    (∀ g : KGroup, ∀ pid st k, alookup st.cachedGroups g.id = none →
      (alookup st.cachedGroups k).isSome → pid ≠ some k →
      alookup ((processGroupsAndMembers fetch scope g pid st).1).cachedGroupMembers k
        = alookup st.cachedGroupMembers k) ∧
    (∀ sgs : List KGroup, ∀ p st k, (alookup st.cachedGroups k).isSome → p ≠ k →
      alookup (processSubGroups fetch scope sgs p st).cachedGroupMembers k
        = alookup st.cachedGroupMembers k) := by
  apply kGroupInd
  · intro gid gname sgs hQ pid st k hun hk hpk
    simp only [KGroup.id] at hun
    have hgk : gid ≠ k := by
      intro h
      subst h
      rw [hun] at hk
      simp at hk
    cases hfe : fetch gid with
    | error e => simp [processGroupsAndMembers, hfe]
    | ok ms =>
      cases hsc : scope with
      | one =>
        subst hsc
        cases pid with
        | none => simp [processGroupsAndMembers, hfe, alookup_aset, hgk]
        | some p =>
          have hpk' : ¬ p = k := fun h => hpk (by rw [h])
          simp [processGroupsAndMembers, hfe, alookup_aset, hgk, hpk']
      | sub =>
        subst hsc
        cases pid with
        | none =>
          simp only [processGroupsAndMembers, hfe]
          simp only [reduceIte]
          rw [hQ gid]
          · simp [alookup_aset, hgk]
          · simp [alookup_aset, hgk, hk]
          · exact hgk
        | some p =>
          have hpk' : ¬ p = k := fun h => hpk (by rw [h])
          simp only [processGroupsAndMembers, hfe]
          simp only [reduceIte]
          rw [hQ gid]
          · simp [alookup_aset, hgk, hpk']
          · simp [alookup_aset, hgk, hk]
          · exact hgk
  · intro p st k _hk _hpk
    simp [processSubGroups]
  · intro sg rest hP hQ p st k hk hpk
    cases hc : alookup st.cachedGroups sg.id with
    | some v =>
      simp only [processSubGroups, hc, Option.isSome_some, if_true]
      exact hQ p st k hk hpk
    | none =>
      simp only [processSubGroups, hc, Option.isSome_none, Bool.false_eq_true,
        if_false]
      have hk' := (walk_cache_mono fetch scope).1 sg (some p) st k hk
      rw [hQ p _ k hk' hpk]
      exact hP (some p) st k hc hk (fun h => hpk (Option.some.inj h))

/-- Both walk steps preserve the processed-once invariant; the single-group
step additionally requires that its group is not yet cached — which is
exactly what its callers check. -/
theorem walk_inv_preserved (fetch : String → Except KE (List KUser))
    (scope : SyncScope) :
    (∀ g : KGroup, ∀ pid st, WalkInv st → alookup st.cachedGroups g.id = none →
      WalkInv (processGroupsAndMembers fetch scope g pid st).1) ∧
    (∀ sgs : List KGroup, ∀ p st, WalkInv st →
      WalkInv (processSubGroups fetch scope sgs p st)) := by
  apply kGroupInd
  · intro gid gname sgs hQ pid st hInv hun
    simp only [KGroup.id] at hun
    have hnotin : gid ∉ st.plog := by
      intro h
      have hmem := hInv.2 gid h
      rw [hun] at hmem
      simp at hmem
    have hplog : (st.plog ++ [gid]).Nodup := by
      simp [List.nodup_append, hInv.1, hnotin]
    have hall : ∀ id ∈ st.plog ++ [gid],
        (alookup (aset st.cachedGroups gid (KGroup.mk gid gname sgs)) id).isSome := by
      intro id hid
      rcases List.mem_append.1 hid with h | h
      · exact aset_isSome gid _ (hInv.2 id h)
      · have hidg : id = gid := by simpa using h
        subst hidg
        simp [alookup_aset]
    cases hfe : fetch gid with
    | error e =>
      simp only [processGroupsAndMembers, hfe]
      exact ⟨hplog, hall⟩
    | ok ms =>
      cases hsc : scope with
      | one =>
        subst hsc
        cases pid with
        | none =>
          simp only [processGroupsAndMembers, hfe]
          exact ⟨hplog, hall⟩
        | some p =>
          simp only [processGroupsAndMembers, hfe]
          exact ⟨hplog, hall⟩
      | sub =>
        subst hsc
        cases pid with
        | none =>
          simp only [processGroupsAndMembers, hfe]
          simp only [reduceIte]
          exact hQ gid _ ⟨hplog, hall⟩
        | some p =>
          simp only [processGroupsAndMembers, hfe]
          simp only [reduceIte]
          exact hQ gid _ ⟨hplog, hall⟩
  · intro p st hInv
    simpa [processSubGroups] using hInv
  · intro sg rest hP hQ p st hInv
    cases hc : alookup st.cachedGroups sg.id with
    | some v =>
      simp only [processSubGroups, hc, Option.isSome_some, if_true]
      exact hQ p st hInv
    | none =>
      simp only [processSubGroups, hc, Option.isSome_none, Bool.false_eq_true,
        if_false]
      exact hQ p _ (hP (some p) st hInv hc)

/-- The top-level loop of `Sync` preserves the processed-once invariant. -/
theorem syncTop_inv_preserved (fetch : String → Except KE (List KUser))
    (scope : SyncScope) :
    ∀ groups : List KGroup, ∀ st, WalkInv st →
      WalkInv (syncTopGroups fetch scope groups st) := by
  intro groups
  induction groups with
  | nil => intro st h; simpa [syncTopGroups] using h
  | cons g rest ih =>
    intro st hInv
    cases hc : alookup st.cachedGroups g.id with
    | some v =>
      simp only [syncTopGroups, hc, Option.isSome_some, if_true]
      exact ih st hInv
    | none =>
      simp only [syncTopGroups, hc, Option.isSome_none, Bool.false_eq_true,
        if_false]
      exact ih _ ((walk_inv_preserved fetch scope).1 g none st hInv hc)

/-! ## Claim theorems -/

/-- C1: member-fetch failure during the walk.  The claim says any
member-fetch failure aborts the provider's `Sync` with zero canonical
groups and the error unchanged.  On the Keycloak syncer the error returned
by `processGroupsAndMembers` is discarded at both call sites, so a failing
fetch for sub-group `idB` still yields a successful result containing two
canonical groups — partial output and no error. -/
theorem keycloak_sync_partial_output_on_member_fetch_error :
    (keycloakSync c1Fetch (.ok c1Groups) (.ok "kc.example.com") .sub
        ⟨[], [], []⟩).1
      = .ok [⟨"team-a", "kc.example.com", "idA", ["alice"]⟩,
             ⟨"team-b", "kc.example.com", "idB", []⟩] := by
  rfl

/-- C2 counterexample: in the hierarchy `idA` → `idB` → `idD` with user
`d1` only in `idD`, the canonical output of `idB` contains `d1` (bubbled
from `idD`), but the canonical output of `idA` does not — so a parent's
canonical member set is not a superset of its child's final canonical
output, contradicting the claim. -/
theorem bubbling_misses_grandchild_members :
    (keycloakSync c2Fetch (.ok c2Groups) (.ok "kc.example.com") .sub
        ⟨[], [], []⟩).1
      = .ok [⟨"A", "kc.example.com", "idA", ["a1", "b1"]⟩,
             ⟨"B", "kc.example.com", "idB", ["b1", "d1"]⟩,
             ⟨"D", "kc.example.com", "idD", ["d1"]⟩] ∧
    "d1" ∈ (⟨"B", "kc.example.com", "idB", ["b1", "d1"]⟩ : OcpGroup).users ∧
    "d1" ∉ (⟨"A", "kc.example.com", "idA", ["a1", "b1"]⟩ : OcpGroup).users := by
  refine ⟨by rfl, by decide, by decide⟩

/-- C2 amended: when the walker processes sub-group `B` under parent
`pid`, it appends `B`'s directly fetched member list to the parent's
cached member list at that moment — before `B`'s own sub-groups are
walked — so the parent's cached member list gains exactly `B`'s direct
members, and the parent's member set is a superset of the usernames of
`B`'s direct members only (not of members later bubbled into `B` from
`B`'s descendants). -/
theorem bubbling_appends_direct_member_list
    (fetch : String → Except KE (List KUser)) (B : KGroup) (pid : String)
    (st : KState) (ms : List KUser)
    (hfetch : fetch B.id = .ok ms)
    (hpid : (alookup st.cachedGroups pid).isSome)
    (hB : alookup st.cachedGroups B.id = none) :
    alookup ((processGroupsAndMembers fetch .sub B (some pid) st).1).cachedGroupMembers pid
      = some ((alookup st.cachedGroupMembers pid).getD [] ++ ms) ∧
    ∀ u ∈ ms, u.username ∈
      ((alookup ((processGroupsAndMembers fetch .sub B (some pid) st).1).cachedGroupMembers pid).getD
        []).map KUser.username := by
  obtain ⟨gid, gname, sgs⟩ := B
  simp only [KGroup.id] at hfetch hB
  have hgp : gid ≠ pid := by
    intro h
    subst h
    rw [hB] at hpid
    simp at hpid
  have key :
      alookup ((processGroupsAndMembers fetch .sub (KGroup.mk gid gname sgs)
          (some pid) st).1).cachedGroupMembers pid
        = some ((alookup st.cachedGroupMembers pid).getD [] ++ ms) := by
    simp only [processGroupsAndMembers, hfetch]
    simp only [reduceIte]
    rw [(walk_members_frame fetch .sub).2 sgs gid _ pid]
    · simp [alookup_aset, hgp, Ne.symm hgp]
    · simp [alookup_aset, hgp, hpid]
    · exact hgp
  refine ⟨key, ?_⟩
  intro u hu
  rw [key]
  simp only [Option.getD_some, List.map_append, List.mem_append]
  exact Or.inr (List.mem_map_of_mem KUser.username hu)

/-- C2 witness: the bubbling theorem instantiated at a cached parent `p`
and leaf child `b` whose single direct member is `u`. -/
theorem bubbling_appends_direct_member_list_witness :
    alookup ((processGroupsAndMembers c2wFetch .sub c2wB (some "p")
        c2wSt).1).cachedGroupMembers "p"
      = some ((alookup c2wSt.cachedGroupMembers "p").getD [] ++ [⟨"u"⟩]) ∧
    ∀ u ∈ [(⟨"u"⟩ : KUser)], u.username ∈
      ((alookup ((processGroupsAndMembers c2wFetch .sub c2wB (some "p")
          c2wSt).1).cachedGroupMembers "p").getD []).map KUser.username :=
  bubbling_appends_direct_member_list c2wFetch c2wB "p" c2wSt [⟨"u"⟩]
    rfl (by rfl) rfl

/-- C6: the hierarchy walk terminates (the walker is a total function) and
processes each group identifier at most once: starting from the empty
per-run state, the ghost log of processed identifiers never contains a
duplicate, for every member oracle, scope and top-level group set.  On the
concrete cyclic fixture `A` → `B` → `A`, the walk processes exactly `A`
then `B`, and the cache ends with exactly one entry for each of `A` and
`B`. -/
theorem walk_processes_each_identifier_once :
    (∀ (fetch : String → Except KE (List KUser)) (scope : SyncScope)
        (groups : List KGroup),
        ((syncTopGroups fetch scope groups ⟨[], [], []⟩).plog).Nodup) ∧
    (syncTopGroups cycleFetch .sub [cycleA] ⟨[], [], []⟩).plog = ["A", "B"] ∧
    (syncTopGroups cycleFetch .sub [cycleA]
        ⟨[], [], []⟩).cachedGroups.map Prod.fst = ["A", "B"] := by
  refine ⟨?_, by decide, by decide⟩
  intro fetch scope groups
  exact (syncTop_inv_preserved fetch scope groups ⟨[], [], []⟩
    ⟨List.nodup_nil, by simp⟩).1


/-- C3: under group-only scope (`one`), the walk of a top-level group `A`
never recurses into its sub-groups and never bubbles: `A`'s canonical
output contains exactly the usernames of `A`'s directly fetched members,
so a username found only among a sub-group `B`'s members never appears in
`A`'s canonical output (and `B` itself is not emitted at all). -/
theorem group_only_scope_excludes_subgroup_members
    (aid nm : String) (sgs : List KGroup)
    (fetch : String → Except KE (List KUser)) (ms msB : List KUser)
    (host : String) (B : KGroup) (u : String)
    (hfA : fetch aid = .ok ms)
    (hB : B ∈ sgs) (hfB : fetch B.id = .ok msB)
    (hu : u ∈ msB.map KUser.username)
    (hnot : u ∉ ms.map KUser.username) :
    (keycloakSync fetch (.ok [.mk aid (some nm) sgs]) (.ok host) .one
        ⟨[], [], []⟩).1
      = .ok [⟨nm, host, aid, ms.map KUser.username⟩] ∧
    ∀ og ∈ [(⟨nm, host, aid, ms.map KUser.username⟩ : OcpGroup)],
      u ∉ og.users := by
  constructor
  · simp [keycloakSync, syncTopGroups, processGroupsAndMembers, hfA,
      alookup, aset, buildOcpGroups, KGroup.id, KGroup.name]
    rfl
  · intro og hog
    have : og = ⟨nm, host, aid, ms.map KUser.username⟩ := by simpa using hog
    subst this
    simpa using hnot

/-- C3 witness: the group-only theorem instantiated at `idA` with
sub-group `idB`, user `x` in `idA`, user `y` only in `idB`. -/
theorem group_only_scope_excludes_subgroup_members_witness :
    (keycloakSync c3wFetch (.ok [.mk "idA" (some "A") [c3wSub]])
        (.ok "kc.example.com") .one ⟨[], [], []⟩).1
      = .ok [⟨"A", "kc.example.com", "idA", [⟨"x"⟩].map KUser.username⟩] ∧
    ∀ og ∈ [(⟨"A", "kc.example.com", "idA",
        [⟨"x"⟩].map KUser.username⟩ : OcpGroup)], "y" ∉ og.users :=
  group_only_scope_excludes_subgroup_members "idA" "A" [c3wSub] c3wFetch
    [⟨"x"⟩] [⟨"y"⟩] "kc.example.com" c3wSub "y" rfl
    (List.mem_singleton.mpr rfl) rfl (by decide) (by decide)

/-- C4 counterexample: an Azure group whose display name is present but
empty (`some ""`) is not dropped — the record is emitted with the empty
name, contradicting the claim that empty display names are dropped. -/
theorem empty_display_name_still_emitted :
    azureSync c4Provider (c4Oracle (some "") "bob")
      = .ok [⟨"", "login.microsoftonline.com", "idG", ["bob"]⟩] := by
  rfl

/-- C4 amended: only an absent (nil) display name causes the Azure syncer
to drop the record with a warning and no error; a present display name —
even the empty string — is emitted.  The Keycloak syncer performs no such
drop at all: it emits a group whose display name is the empty string and
panics (rather than warns) on an absent display name. -/
theorem only_nil_display_name_dropped (n : Option String) (u : String) :
    (azureSync c4Provider (c4Oracle n u)
      = match n with
        | none => .ok []
        | some nm => .ok [⟨nm, "login.microsoftonline.com", "idG", [u]⟩]) ∧
    (keycloakSync (fun _ => .ok []) (.ok [.mk "idE" (some "") []])
        (.ok "kc.example.com") .one ⟨[], [], []⟩).1
      = .ok [⟨"", "kc.example.com", "idE", []⟩] ∧
    (keycloakSync (fun _ => .ok []) (.ok [.mk "idN" none []])
        (.ok "kc.example.com") .one ⟨[], [], []⟩).1
      = .error .nilNameDeref := by
  refine ⟨?_, by rfl, by rfl⟩
  cases n <;> rfl

/-- C5: the claim requires one aggregated error per missing required
secret key — in particular for an absent `password` key.  The Keycloak
validator's password branch re-tests the `username` key (source line 88),
so a secret that has `username` but no `password` key validates with an
empty error list. -/
theorem validate_reports_no_error_for_missing_password_key :
    alookup c5Secret.data "password" = none ∧
    (keycloakValidate (.ok c5Secret) (fun _ => none) c5Syncer).2 = [] := by
  exact ⟨rfl, rfl⟩


/-- C7 counterexample: with allow-list `["eng"]` and base group `base`
expanding to the group-typed members `eng` and `ops`, the Azure sync
emits only `eng` — the allow-list is applied to the groups reached through
base-group expansion (and to the base group itself), contradicting the
claim that the predicate is applied only to groups discovered at the top
level of the directory-graph path. -/
theorem allow_list_filters_expanded_base_groups :
    azureSync c7Provider c7Oracle
      = .ok [⟨"eng", "login.microsoftonline.com", "idEng", []⟩] ∧
    ∀ og ∈ [(⟨"eng", "login.microsoftonline.com", "idEng", []⟩ : OcpGroup)],
      og.name ≠ "ops" := by
  refine ⟨by rfl, by decide⟩

/-- C7 amended: the allow-list predicate is applied uniformly to every
group in the Azure output loop — those discovered at the top level and
those reached through base-group expansion alike: the output loop keeps
exactly the groups with a present display name that the allow-list admits
(an empty allow-list admits every group, and `["eng"]` admits only groups
literally named `eng`); with an empty allow-list the same base-group
fixture emits all three groups, including both expansion-reached ones. -/
theorem allow_list_applied_to_every_azure_group
    (allowList : List String) (host : String) (gs : List AGroup)
    (hid : ∀ g ∈ gs, (g.dirObj.id).isSome) :
    mapAadGroups (fun _ => .ok []) none allowList host gs
      = .ok (gs.filterMap (fun g =>
          match g.displayName with
          | none => none
          | some nm =>
            if isGroupAllowed nm allowList then
              some ⟨nm, host, (g.dirObj.id).getD "", []⟩
            else none)) ∧
    (∀ nm, isGroupAllowed nm [] = true) ∧
    azureSync c7ProviderAll c7Oracle
      = .ok [⟨"base", "login.microsoftonline.com", "idBase", []⟩,
             ⟨"eng", "login.microsoftonline.com", "idEng", []⟩,
             ⟨"ops", "login.microsoftonline.com", "idOps", []⟩] := by
  refine ⟨?_, fun nm => rfl, by rfl⟩
  induction gs with
  | nil => rfl
  | cons g rest ih =>
    have hg := hid g (List.mem_cons_self g rest)
    have hrest := ih (fun x hx => hid x (List.mem_cons_of_mem g hx))
    cases hgid : g.dirObj.id with
    | none => rw [hgid] at hg; simp at hg
    | some gid =>
      cases hdn : g.displayName with
      | none =>
        simp [mapAadGroups, hdn, hrest]
      | some nm =>
        by_cases ha : isGroupAllowed nm allowList
        · simp [mapAadGroups, hdn, ha, azListGroupMembers, derefStr, hgid,
            azMembersLoop, hrest]
          rfl
        · simp [mapAadGroups, hdn, ha, hrest]

/-- C7 witness: the allow-list theorem instantiated at a single top-level
group named `eng` with allow-list `["eng"]`. -/
theorem allow_list_applied_to_every_azure_group_witness :
    mapAadGroups (fun _ => .ok []) none ["eng"] "h" [c7wGroup]
      = .ok ([c7wGroup].filterMap (fun g =>
          match g.displayName with
          | none => none
          | some nm =>
            if isGroupAllowed nm ["eng"] then
              some ⟨nm, "h", (g.dirObj.id).getD "", []⟩
            else none)) ∧
    (∀ nm, isGroupAllowed nm [] = true) ∧
    azureSync c7ProviderAll c7Oracle
      = .ok [⟨"base", "login.microsoftonline.com", "idBase", []⟩,
             ⟨"eng", "login.microsoftonline.com", "idEng", []⟩,
             ⟨"ops", "login.microsoftonline.com", "idOps", []⟩] :=
  allow_list_applied_to_every_azure_group ["eng"] "h" [c7wGroup] (by decide)

/-- C8 counterexample: `KeycloakSyncer.Validate` assigns the fetched
secret to the syncer's `Secret` field, so the syncer is not identical
before and after the call, contradicting the claim that `Validate` never
mutates the syncer's state. -/
theorem keycloak_validate_assigns_secret_field :
    (keycloakValidate (.ok c5Secret) (fun _ => none) c5Syncer).1.secret
      = some c5Secret ∧
    c5Syncer.secret = none := by
  exact ⟨rfl, rfl⟩

/-- C8 amended: `Validate` mutates only the fetched-secret field of the
syncer — `Secret` on the Keycloak syncer and `CredentialsSecret` on the
Azure syncer; every other field (provider configuration, caches, name) is
identical before and after the call. -/
theorem validate_mutates_only_secret_fields
    (getSecret : Except KE KSecret) (parseReqURI : String → Option KE)
    (k : KSyncer) (getCred : Except KE KSecret) (a : AzSyncer) :
    ((keycloakValidate getSecret parseReqURI k).1.name = k.name ∧
     (keycloakValidate getSecret parseReqURI k).1.providerURL = k.providerURL ∧
     (keycloakValidate getSecret parseReqURI k).1.loginRealm = k.loginRealm ∧
     (keycloakValidate getSecret parseReqURI k).1.scope = k.scope ∧
     (keycloakValidate getSecret parseReqURI k).1.secretName = k.secretName ∧
     (keycloakValidate getSecret parseReqURI k).1.insecure = k.insecure ∧
     (keycloakValidate getSecret parseReqURI k).1.state = k.state) ∧
    ((azureValidate getCred a).1.name = a.name ∧
     (azureValidate getCred a).1.credSecretName = a.credSecretName ∧
     (azureValidate getCred a).1.credSecretNamespace = a.credSecretNamespace ∧
     (azureValidate getCred a).1.azState = a.azState ∧
     (azureValidate getCred a).1.provider = a.provider) := by
  cases getCred with
  | error e => exact ⟨⟨rfl, rfl, rfl, rfl, rfl, rfl, rfl⟩, rfl, rfl, rfl, rfl, rfl⟩
  | ok s => exact ⟨⟨rfl, rfl, rfl, rfl, rfl, rfl, rfl⟩, rfl, rfl, rfl, rfl, rfl⟩

/-- C9: `KeycloakSyncer.Bind` re-creates both caches as fresh empty maps
and `AzureSyncer.Init` does the same, so a run (Bind then Sync, as the
Orchestrator sequences it) produces the same canonical output whatever
cache state was left behind by an earlier invocation: a second Sync never
observes entries of an earlier run. -/
theorem caches_reset_before_each_run
    (login : Except KE Unit) (fetch : String → Except KE (List KUser))
    (getGroups : Except KE (List KGroup)) (urlRes : Except KE String)
    (k : KSyncer) (s : KState) (ast : AzState) :
    keycloakRun login fetch getGroups urlRes { k with state := s }
      = keycloakRun login fetch getGroups urlRes k ∧
    keycloakBind (.ok ()) k = .ok { k with state := ⟨[], [], []⟩ } ∧
    (azureInit ast).1 = ⟨[], []⟩ := by
  refine ⟨?_, rfl, rfl⟩
  cases login <;> rfl

/-- C10: `isUsernamePresent` dereferences the pointer produced by the
type assertion before consulting its `ok` flag, so on a member whose
additional-data map lacks the requested attribute it panics with a nil
dereference instead of returning `("", false)`; consequently it can never
return a `found = false` result, and — under the default (absent)
username-attribute configuration — neither can `getUsernameForUser`, so
the username-not-found warning branch of `listGroupMembers` is unreachable
without a runtime fault. -/
theorem username_lookup_nil_deref_on_missing_field :
    isUsernamePresent c10UserNoField GraphUserNameAttribute
      = .error .panicNilDeref ∧
    (∀ (user : ADirObj) (field : String) (r : String × Bool),
      isUsernamePresent user field = .ok r → r.2 = true) ∧
    (∀ (user : ADirObj) (r : String × Bool),
      getUsernameForUser none user = .ok r → r.2 = true) := by
  have key : ∀ (user : ADirObj) (field : String) (r : String × Bool),
      isUsernamePresent user field = .ok r → r.2 = true := by
    intro user field r h
    unfold isUsernamePresent at h
    cases hl : alookup user.additionalData field with
    | none => rw [hl] at h; simp [assertStrPtr2] at h
    | some v =>
      cases v with
      | otherVal => rw [hl] at h; simp [assertStrPtr2] at h
      | strPtr p =>
        cases p with
        | none => rw [hl] at h; simp [assertStrPtr2] at h
        | some str =>
          rw [hl] at h
          simp only [assertStrPtr2, Except.ok.injEq] at h
          rw [← h]
  exact ⟨rfl, key, fun user r h => key user GraphUserNameAttribute r h⟩

/-- C10 witness: the never-false property applied at a member whose
`userPrincipalName` attribute is present and equal to `bob`. -/
theorem username_lookup_nil_deref_on_missing_field_witness :
    ((("bob", true) : String × Bool).2 = true) ∧
    ((("bob", true) : String × Bool).2 = true) :=
  ⟨username_lookup_nil_deref_on_missing_field.2.1 c10UserOk
      GraphUserNameAttribute ("bob", true) rfl,
   username_lookup_nil_deref_on_missing_field.2.2 c10UserOk
      ("bob", true) rfl⟩


end GroupSync
